import Mathlib

/-!
Verification of the path-addressed synchronization layer of the
jupyterlab-sharedb repository.  The definitions below are a shallow
embedding of the TypeScript sources (`src/src/value.ts`, `src/src/list.ts`,
`src/src/string.ts`, and the ShareString variant and `isSubpath` in
`src/unnamed/part_002`); JSON documents are modelled as an inductive tree,
JavaScript dynamic values appearing in event fields as the `JSVal` type,
and the external ShareDB client document (its local, synchronous
application of submitted json0 operations) as the `ShareDoc` state.
-/

namespace ShareDB

/-- A path component: a string key (object field) or a numeric key
(array index); JS numbers are modelled as integers. -/
inductive Key
  | str (s : String)
  | num (n : Int)
deriving DecidableEq

/-- A path: an ordered sequence of keys. -/
abbrev Path := List Key

/-- A JSON document tree.  Objects are association lists (field order is
kept; no claim below depends on key-order-insensitive comparison). -/
inductive JSON
  | null
  | bool (b : Bool)
  | num (n : Int)
  | str (s : String)
  | arr (elts : List JSON)
  | obj (fields : List (String × JSON))

mutual

/-- Structural equality of JSON trees. -/
def JSON.beq : JSON → JSON → Bool
  | JSON.null, JSON.null => true
  | JSON.bool a, JSON.bool b => a == b
  | JSON.num a, JSON.num b => a == b
  | JSON.str a, JSON.str b => a == b
  | JSON.arr xs, JSON.arr ys => JSON.beqList xs ys
  | JSON.obj fs, JSON.obj gs => JSON.beqFields fs gs
  | _, _ => false

/-- Element-wise structural equality of JSON arrays. -/
def JSON.beqList : List JSON → List JSON → Bool
  | [], [] => true
  | x :: xs, y :: ys => JSON.beq x y && JSON.beqList xs ys
  | _, _ => false

/-- Field-wise structural equality of JSON objects. -/
def JSON.beqFields : List (String × JSON) → List (String × JSON) → Bool
  | [], [] => true
  | (k, v) :: fs, (l, w) :: gs => k == l && JSON.beq v w && JSON.beqFields fs gs
  | _, _ => false

end

/-- `JSONExt.deepEqual` from phosphor, modelled as structural equality. -/
def deepEqual (a b : JSON) : Bool := JSON.beq a b

/-- Deep equality lifted to possibly-`undefined` JS values
(`none` models JS `undefined`); `deepEqual(undefined, v)` is `false`
for any JSON value `v`, and `undefined === undefined` is `true`. -/
def jsEq (a b : Option JSON) : Bool :=
  match a, b with
  | none, none => true
  | some x, some y => deepEqual x y
  | _, _ => false

/-- JS truthiness of a possibly-`undefined` JSON value: `undefined`,
`null`, `false`, `0` and `""` are falsy; arrays and objects (even empty)
are truthy. -/
def jsTruthy : Option JSON → Bool
  | none => false
  | some JSON.null => false
  | some (JSON.bool b) => b
  | some (JSON.num n) => n ≠ 0
  | some (JSON.str s) => s ≠ ""
  | some (JSON.arr _) => true
  | some (JSON.obj _) => true

/-- Look up a field of a JSON object (association list). -/
def lookupField : List (String × JSON) → String → Option JSON
  | [], _ => none
  | (k, v) :: rest, s => if k = s then some v else lookupField rest s

/-- Set (replace or append) a field of a JSON object. -/
def setField : List (String × JSON) → String → JSON → List (String × JSON)
  | [], s, v => [(s, v)]
  | (k, w) :: rest, s, v =>
      if k = s then (s, v) :: rest else (k, w) :: setField rest s v

/-- Index into a JSON array with a JS number; negative or out-of-range
indices give `undefined`. -/
def jsGetIdx (xs : List JSON) (i : Int) : Option JSON :=
  if i < 0 then none else xs.get? i.toNat

/-- `node[component]` in JS: child of a possibly-`undefined` JSON node at
a key.  Indexing `undefined` would throw in JS; it is modelled as
`undefined` (no claim below exercises that corner). -/
def jsChild : Option JSON → Key → Option JSON
  | some (JSON.obj fs), Key.str s => lookupField fs s
  | some (JSON.arr xs), Key.num i => jsGetIdx xs i
  | _, _ => none

/-- Walk a path from a node, JS-style member access at every step. -/
def walk (d : Option JSON) : Path → Option JSON
  | [] => d
  | c :: rest => walk (jsChild d c) rest

/-- A raw wire operation (json0 shape, §6 of the spec): `none` models an
absent field. -/
structure RawOp where
  p : Path
  oi : Option JSON
  od : Option JSON
  si : Option String
  sd : Option String
  li : Option JSON
  ld : Option JSON
  lm : Option Int

/-- The all-absent operation; concrete ops are built from it with `with`. -/
def RawOp.empty : RawOp :=
  ⟨[], none, none, none, none, none, none, none⟩

/-- Apply a modification at the end of a path inside a JSON tree,
failing (`none`) when an intermediate node is missing or has the wrong
shape. -/
def modifyAt (d : JSON) (parent : Path) (f : JSON → Option JSON) : Option JSON :=
  match parent with
  | [] => f d
  | c :: rest =>
    match d, c with
    | JSON.obj fs, Key.str s => do
        let child ← lookupField fs s
        let child' ← modifyAt child rest f
        some (JSON.obj (setField fs s child'))
    | JSON.arr xs, Key.num i => do
        let child ← jsGetIdx xs i
        let child' ← modifyAt child rest f
        if i < 0 then none else some (JSON.arr (xs.set i.toNat child'))
    | _, _ => none

/-- The numeric final key of a path, if any. -/
def lastIdx (p : Path) : Option Int :=
  match p.getLast? with
  | some (Key.num i) => some i
  | _ => none

/-- Apply a list-level edit at the array addressed by `p.dropLast`,
with the final key of `p` as the index. -/
def listApply (d : Option JSON) (p : Path) (f : Int → List JSON → Option (List JSON)) :
    Option JSON := do
  let root ← d
  let i ← lastIdx p
  modifyAt root p.dropLast fun node =>
    match node with
    | JSON.arr xs => do
        let xs' ← f i xs
        some (JSON.arr xs')
    | _ => none

/-- json0 `oi`: set the value at a path (replace-or-insert at the final
key); at the empty path the whole document is replaced. -/
def applyOi (d : Option JSON) (p : Path) (v : JSON) : Option JSON :=
  match p.getLast? with
  | none => some v
  | some (Key.str s) => do
      let root ← d
      modifyAt root p.dropLast fun node =>
        match node with
        | JSON.obj fs => some (JSON.obj (setField fs s v))
        | _ => none
  | some (Key.num _) =>
      listApply d p fun i xs =>
        if 0 ≤ i ∧ i.toNat < xs.length then some (xs.set i.toNat v) else none

/-- json0 `si`/`sd`: splice text into / out of the string addressed by
`p.dropLast` at the numeric final key of `p`. -/
def applyStr (d : Option JSON) (p : Path) (ins : Bool) (t : String) : Option JSON := do
  let root ← d
  let i ← lastIdx p
  modifyAt root p.dropLast fun node =>
    match node with
    | JSON.str s =>
        if 0 ≤ i ∧ i.toNat ≤ s.length then
          if ins then
            some (JSON.str ((s.take i.toNat) ++ t ++ (s.drop i.toNat)))
          else
            if (s.drop i.toNat).take t.length = t then
              some (JSON.str ((s.take i.toNat) ++ (s.drop (i.toNat + t.length))))
            else none
        else none
    | _ => none

/-- Local application of a submitted json0 operation to the document
snapshot (the external ShareDB client applies every submitted op to
`doc.data` synchronously); `none` means the op does not apply. -/
def applyRaw (d : Option JSON) (op : RawOp) : Option JSON :=
  match op.li, op.ld with
  | some x, some _ =>
      listApply d op.p fun i xs =>
        if 0 ≤ i ∧ i.toNat < xs.length then some (xs.set i.toNat x) else none
  | some x, none =>
      listApply d op.p fun i xs =>
        if 0 ≤ i ∧ i.toNat ≤ xs.length then some (xs.insertIdx i.toNat x) else none
  | none, some _ =>
      listApply d op.p fun i xs =>
        if 0 ≤ i ∧ i.toNat < xs.length then some (xs.eraseIdx i.toNat) else none
  | none, none =>
    match op.oi with
    | some v => applyOi d op.p v
    | none =>
      match op.si with
      | some t => applyStr d op.p true t
      | none =>
        match op.sd with
        | some t => applyStr d op.p false t
        | none =>
          match op.lm with
          | some m =>
              listApply d op.p fun i xs =>
                if 0 ≤ i ∧ i.toNat < xs.length ∧ 0 ≤ m ∧ m.toNat < xs.length then
                  match jsGetIdx xs i with
                  | some x => some ((xs.eraseIdx i.toNat).insertIdx m.toNat x)
                  | none => none
                else none
          | none => none

/-- The external ShareDB client document, as seen by the primitives:
a data snapshot (`none` before the document is loaded), the outbound
queue of submitted operations, and the transport connection state
(`doc.connection.state`, a string such as "connecting"). -/
structure ShareDoc where
  data : Option JSON
  queue : List RawOp
  connState : String

/-- `doc.submitOp(op)`: append the op to the outbound queue and apply it
to the local snapshot (the snapshot is kept unchanged when the op does
not apply). -/
def ShareDoc.submitOp (d : ShareDoc) (op : RawOp) : ShareDoc :=
  { data :=
      match applyRaw d.data op with
      | some x => some x
      | none => d.data,
    queue := d.queue ++ [op],
    connState := d.connState }

/-- `isSubpath` from `src/src/list.ts` (identical in
`src/unnamed/part_002`): length comparison followed by an element-wise
strict-equality loop. -/
def isSubpath (subpath path : Path) : Bool :=
  if subpath.length > path.length then false
  else (List.range subpath.length).all fun i =>
    decide (subpath.get? i = path.get? i)

/-- A dynamic JS value as it appears in event index fields: a number, a
string, `undefined`, or `NaN`. -/
inductive JSVal
  | num (n : Int)
  | strv (s : String)
  | undef
  | nan
deriving DecidableEq

/-- The JS value of an optional path key (`undefined` when absent). -/
def keyVal : Option Key → JSVal
  | some (Key.num i) => JSVal.num i
  | some (Key.str s) => JSVal.strv s
  | none => JSVal.undef

/-- JS `v + n` for a dynamic `v` and a number `n`: numeric addition,
string concatenation, or `NaN` when `v` is `undefined`. -/
def jsValAdd (v : JSVal) (n : Nat) : JSVal :=
  match v with
  | JSVal.num i => JSVal.num (i + n)
  | JSVal.strv s => JSVal.strv (s ++ toString n)
  | JSVal.undef => JSVal.nan
  | JSVal.nan => JSVal.nan

/-- JS `v.length` of a JSON value: defined for strings and arrays,
`undefined` otherwise. -/
def jsLenOf : JSON → JSVal
  | JSON.str s => JSVal.num s.length
  | JSON.arr xs => JSVal.num xs.length
  | _ => JSVal.undef

/-- JS truthiness of an optional string field (absent and `""` are
falsy). -/
def strTruthy : Option String → Bool
  | some s => s ≠ ""
  | none => false

/-- The `IObservableList.IChangedArgs` shape emitted by `ShareList`. -/
structure ListChangedArgs where
  type : String
  oldIndex : JSVal
  newIndex : JSVal
  oldValues : List (Option JSON)
  newValues : List (Option JSON)

/-- The `IObservableString.IChangedArgs` shape emitted by `ShareString`
(the source field `end` is a Lean keyword and is called `stop` here). -/
structure StringChangedArgs where
  type : String
  start : JSVal
  stop : JSVal
  value : JSON

/-- The `ObservableValue.IChangedArgs` shape emitted by `ShareValue`. -/
structure ValueChangedArgs where
  oldValue : Option JSON
  newValue : Option JSON

/-- `this.array` of `ShareList` (list.ts:65-75): if `doc.data` is set,
walk the bound path from the root and return the node found there.  The
source returns that node unconditionally; it is an array whenever the
document is well-formed at the path, and the node is modelled as-is. -/
def ShareList.arrayNode (path : Path) (doc : ShareDoc) : Option JSON :=
  match doc.data with
  | none => some (JSON.arr [])
  | some root => walk (some root) path

/-- `this.array[index]`, JS member access on the walked node. -/
def ShareList.arrayAt (path : Path) (doc : ShareDoc) (i : Int) : Option JSON :=
  match ShareList.arrayNode path doc with
  | some (JSON.arr xs) => jsGetIdx xs i
  | _ => none

/-- `this.length` (`this.array.length`): defined for arrays and strings,
JS `undefined` (modelled `none`) otherwise. -/
def ShareList.lengthOf (path : Path) (doc : ShareDoc) : Option Int :=
  match ShareList.arrayNode path doc with
  | some (JSON.arr xs) => some xs.length
  | some (JSON.str s) => some s.length
  | _ => none

/-- JS `i >= len` where `len` may be `undefined` (a comparison with
`undefined` is false). -/
def jsGe (i : Int) (len : Option Int) : Bool :=
  match len with
  | some l => i ≥ l
  | none => false

/-- JS truthiness of a possibly-`undefined` length (`while (this.length)`):
`undefined` and `0` are falsy. -/
def jsTruthyLen : Option Int → Bool
  | some l => l ≠ 0
  | none => false

/-- JS `len <= n` where `len` may be `undefined` (false for
`undefined`). -/
def jsLe (len : Option Int) (n : Int) : Bool :=
  match len with
  | some l => l ≤ n
  | none => false

/-- The loop shared by `pushAll` and `insertAll`: submit one
list-insert per value at consecutive indices. -/
def ShareList.submitSeq (path : Path) (doc : ShareDoc) (idx : Int) : List JSON → ShareDoc
  | [] => doc
  | v :: rest =>
      ShareList.submitSeq path
        (doc.submitOp { RawOp.empty with p := path ++ [Key.num idx], li := some v })
        (idx + 1) rest


/-- `ShareList.set` (list.ts:148-166): silently drop while the transport
is connecting; read the old value at the index; bail if the new value
deep-equals it; otherwise submit a list-replace op with `ld` the old
item and `li` the new one at `path ++ [index]`.  (The throw on an
`undefined` new value cannot arise: the model's `value` is a `JSON`.)
The source has no bounds check on `index`. -/
def ShareList.set (path : Path) (doc : ShareDoc) (index : Int) (value : JSON) : ShareDoc :=
  if doc.connState = "connecting" then doc
  else
    let oldValue := ShareList.arrayAt path doc index
    if jsEq oldValue (some value) then doc
    else
      doc.submitOp
        { RawOp.empty with
            p := path ++ [Key.num index],
            ld := oldValue,
            li := some value }

/-- `ShareList.push` (list.ts:181-191): silently drop while connecting
(the JS method then returns `undefined`, modelled `none`); otherwise
submit a list-insert at the current length and return `len + 1`. -/
def ShareList.push (path : Path) (doc : ShareDoc) (value : JSON) : Option Int × ShareDoc :=
  if doc.connState = "connecting" then (none, doc)
  else
    let len := ShareList.lengthOf path doc
    (len.map (fun l => l + 1),
     doc.submitOp
       { RawOp.empty with
           p := path ++ [Key.num (len.getD 0)],
           li := some value })

/-- `ShareList.insert` (list.ts:212-220): silently drop while
connecting; otherwise submit a list-insert at `path ++ [index]`. -/
def ShareList.insert (path : Path) (doc : ShareDoc) (index : Int) (value : JSON) : ShareDoc :=
  if doc.connState = "connecting" then doc
  else
    doc.submitOp
      { RawOp.empty with
          p := path ++ [Key.num index],
          li := some value }

/-- `ShareList.remove` (list.ts:265-278): silently drop while
connecting (returning JS `undefined`); return the `undefined` sentinel
without submitting when the index is out of `[0, length)`; otherwise
submit a list-delete carrying the removed item and return it. -/
def ShareList.remove (path : Path) (doc : ShareDoc) (index : Int) : Option JSON × ShareDoc :=
  if doc.connState = "connecting" then (none, doc)
  else if index < 0 || jsGe index (ShareList.lengthOf path doc) then (none, doc)
  else
    let oldValue := ShareList.arrayAt path doc index
    (oldValue,
     doc.submitOp
       { RawOp.empty with
           p := path ++ [Key.num index],
           ld := oldValue })

/-- `ShareList.removeValue` (list.ts:236-246): drop while connecting
(returning `-1`); otherwise find the first deep-equal item (JS
`findFirstIndex` gives `-1` when absent), remove at that index, and
return the index. -/
def ShareList.removeValue (path : Path) (doc : ShareDoc) (value : JSON) : Int × ShareDoc :=
  if doc.connState = "connecting" then (-1, doc)
  else
    let xs := match ShareList.arrayNode path doc with
      | some (JSON.arr l) => l
      | _ => []
    let index : Int :=
      match xs.findIdx? (fun item => jsEq (some item) (some value)) with
      | some i => i
      | none => -1
    (index, (ShareList.remove path doc index).2)

/-- One pass of `ShareList.clear`'s `while (this.length)` loop, with the
initial length as fuel (each successful removal shortens the array by
one). -/
def ShareList.clearGo (path : Path) (doc : ShareDoc) : Nat → ShareDoc
  | 0 => doc
  | n + 1 =>
      if jsTruthyLen (ShareList.lengthOf path doc) then
        ShareList.clearGo path ((ShareList.remove path doc 0).2) n
      else doc

/-- `ShareList.clear` (list.ts:289-296): drop while connecting;
otherwise remove index 0 while the length is truthy. -/
def ShareList.clear (path : Path) (doc : ShareDoc) : ShareDoc :=
  if doc.connState = "connecting" then doc
  else ShareList.clearGo path doc ((ShareList.lengthOf path doc).getD 0).toNat

/-- `ShareList.move` (list.ts:315-322): drop while connecting; a length
of at most one or equal indices is an explicit no-op; and the method
body contains no further statements, so no operation is ever
submitted. -/
def ShareList.move (path : Path) (doc : ShareDoc) (fromIndex toIndex : Int) : ShareDoc :=
  if doc.connState = "connecting" then doc
  else if jsLe (ShareList.lengthOf path doc) 1 || fromIndex = toIndex then doc
  else doc

/-- `ShareList.pushAll` (list.ts:337-349): drop while connecting
(returning 0); otherwise submit one list-insert per value at increasing
indices starting from the current length, and return the final
length. -/
def ShareList.pushAll (path : Path) (doc : ShareDoc) (values : List JSON) : Option Int × ShareDoc :=
  if doc.connState = "connecting" then (some 0, doc)
  else
    let idx0 : Int := (ShareList.lengthOf path doc).getD 0
    let doc' := ShareList.submitSeq path doc idx0 values
    (ShareList.lengthOf path doc', doc')

/-- `ShareList.insertAll` (list.ts:370-381): drop while connecting;
otherwise submit one list-insert per value at increasing indices
starting from `index`. -/
def ShareList.insertAll (path : Path) (doc : ShareDoc) (index : Int) (values : List JSON) : ShareDoc :=
  if doc.connState = "connecting" then doc
  else ShareList.submitSeq path doc index values

/-- The loop of `removeRange`: remove at `startIndex` once per position
of the range. -/
def ShareList.removeRangeGo (path : Path) (doc : ShareDoc) (startIndex : Int) : Nat → ShareDoc
  | 0 => doc
  | n + 1 =>
      ShareList.removeRangeGo path ((ShareList.remove path doc startIndex).2) startIndex n

/-- `ShareList.removeRange` (list.ts:401-409): drop while connecting
(returning 0); otherwise remove at `startIndex` once per position of
`[startIndex, endIndex)`, and return the final length. -/
def ShareList.removeRange (path : Path) (doc : ShareDoc) (startIndex endIndex : Int) :
    Option Int × ShareDoc :=
  if doc.connState = "connecting" then (some 0, doc)
  else
    let doc' := ShareList.removeRangeGo path doc startIndex (endIndex - startIndex).toNat
    (ShareList.lengthOf path doc', doc')

/-- An object-insert operation `{p, oi}` as submitted by the load
handler and `_preparePath`. -/
def oiOp (p : Path) (v : JSON) : RawOp :=
  { RawOp.empty with p := p, oi := some v }

/-- `ShareList._preparePath` (list.ts:411-422): walk all but the last
path component from the root; whenever the node reached so far has a
falsy child at the next component, submit an object-insert of `{}` at
that prefix (current-path) before descending.  The source's `current`
reference tracks the in-place updated snapshot, so the walk after a
submission sees the freshly inserted `{}`. -/
def ShareList.preparePathGo (doc : ShareDoc) (done : Path) : List Key → ShareDoc
  | [] => doc
  | c :: rest =>
      let done' := done ++ [c]
      let doc' :=
        if jsTruthy (walk doc.data done') then doc
        else doc.submitOp (oiOp done' (JSON.obj []))
      ShareList.preparePathGo doc' done' rest

/-- `ShareList._preparePath` applied to the bound path. -/
def ShareList.preparePath (path : Path) (doc : ShareDoc) : ShareDoc :=
  ShareList.preparePathGo doc [] path.dropLast

/-- The `pathExists` walk of the load handler (list.ts:34-42): descend
the full path from the root, failing as soon as a component's child is
falsy. -/
def walkAllTruthy (d : Option JSON) : Path → Bool
  | [] => true
  | c :: rest =>
      let child := jsChild d c
      jsTruthy child && walkAllTruthy child rest

/-- The `load` handler of `ShareList` (list.ts:32-47): prepare the
intermediate path nodes, then walk the full path on the (updated)
snapshot; if some component is falsy, submit an object-insert of an
empty list at the bound path. -/
def ShareList.onLoad (path : Path) (doc : ShareDoc) : ShareDoc :=
  let doc1 := ShareList.preparePath path doc
  if walkAllTruthy doc1.data path then doc1
  else doc1.submitOp (oiOp path (JSON.arr []))

/-- `ShareList._onOp` (list.ts:424-469): an empty batch is a no-op, a
batch of more than one op throws before anything is emitted; a single
op unrelated to the bound path (the bound path not being a prefix of
the op's path) is ignored; otherwise the op's final path key is popped
as the index and the change event follows the li/ld/lm translation
table. -/
def ShareList.onOp (path : Path) (doc : ShareDoc) (ops : List RawOp) :
    Except String (List ListChangedArgs) :=
  if ops.length = 0 then Except.ok []
  else if ops.length > 1 then Except.error "Unexpected number of ops"
  else
    match ops with
    | [] => Except.ok []
    | op :: _ =>
      if ¬ isSubpath path op.p then Except.ok []
      else
        let idx := keyVal op.p.getLast?
        if op.li.isSome ∧ op.ld.isSome then
          Except.ok [⟨"set", idx, idx, [op.ld], [op.li]⟩]
        else if op.li.isSome then
          Except.ok [⟨"add", JSVal.num (-1), idx, [], [op.li]⟩]
        else if op.ld.isSome then
          Except.ok [⟨"remove", idx, JSVal.num (-1), [op.ld], []⟩]
        else
          match op.lm with
          | some m =>
              Except.ok [⟨"move", idx, JSVal.num m,
                [ShareList.arrayAt path doc m], [ShareList.arrayAt path doc m]⟩]
          | none => Except.ok []

/-- `ShareString._onOp` / `SharePrimitive.onOp` for strings
(string.ts:142-176): empty batch no-op, more than one op throws before
anything is emitted, unrelated paths ignored; a present `oi` emits a
whole-string `set`, a truthy `si` an `insert` and a truthy `sd` a
`remove`, both at the op's final path key (the source's
`op.p.slice(-1).pop()`). -/
def ShareString.onOp (path : Path) (ops : List RawOp) :
    Except String (List StringChangedArgs) :=
  if ops.length = 0 then Except.ok []
  else if ops.length > 1 then Except.error "Unexpected number of ops"
  else
    match ops with
    | [] => Except.ok []
    | op :: _ =>
      if ¬ isSubpath path op.p then Except.ok []
      else
        let last := keyVal op.p.getLast?
        match op.oi with
        | some j => Except.ok [⟨"set", JSVal.num 0, jsLenOf j, j⟩]
        | none =>
          if strTruthy op.si then
            Except.ok
              [⟨"insert", last, jsValAdd last (op.si.getD "").length,
                JSON.str (op.si.getD "")⟩]
          else if strTruthy op.sd then
            Except.ok
              [⟨"remove", last, jsValAdd last (op.sd.getD "").length,
                JSON.str (op.sd.getD "")⟩]
          else Except.ok []

/-- The op submitted by `ShareString.insert` while bound
(string.ts:83-86): a string-insert at `path ++ [index]`. -/
def ShareString.insertOp (path : Path) (index : Int) (text : String) : RawOp :=
  { RawOp.empty with p := path ++ [Key.num index], si := some text }

/-- JS `String.prototype.slice` with clamping of both endpoints. -/
def jsSlice (s : String) (start stop : Int) : String :=
  let len : Int := s.length
  let a := (if start < 0 then max (len + start) 0 else min start len).toNat
  let b := (if stop < 0 then max (len + stop) 0 else min stop len).toNat
  ((s.drop a).take (b - a))

/-- The op submitted by `ShareString.remove` while bound
(string.ts:101-104): a string-delete at `path ++ [start]` carrying the
slice of the current text. -/
def ShareString.removeOp (path : Path) (curText : String) (start stop : Int) : RawOp :=
  { RawOp.empty with p := path ++ [Key.num start], sd := some (jsSlice curText start stop) }

/-- The op submitted by the `ShareString.text` setter while bound
(string.ts:58): a whole-value replace at the bound path. -/
def ShareString.setOp (path : Path) (value : String) : RawOp :=
  { RawOp.empty with p := path, oi := some (JSON.str value) }

/-- The op submitted by `ShareList.set` (list.ts:161-165). -/
def ShareList.setOp (path : Path) (index : Int) (oldValue : Option JSON) (value : JSON) : RawOp :=
  { RawOp.empty with p := path ++ [Key.num index], ld := oldValue, li := some value }

/-- The op submitted by `ShareList.insert` (list.ts:216-219). -/
def ShareList.insertOp (path : Path) (index : Int) (value : JSON) : RawOp :=
  { RawOp.empty with p := path ++ [Key.num index], li := some value }

/-- The op submitted by `ShareList.remove` (list.ts:273-276). -/
def ShareList.removeOp (path : Path) (index : Int) (oldValue : Option JSON) : RawOp :=
  { RawOp.empty with p := path ++ [Key.num index], ld := oldValue }

/-- The state of a `SharePrimitive`-based `ShareString`
(string.ts): the shared document handle and, while in the local phase,
the private `ObservableString` (`none` once bound). -/
structure ShareStringState where
  doc : ShareDoc
  strv : Option String

/-- A `ShareString` bound-phase `insert` submits `insertOp`; while
local it splices the private string (the behavior of the
`ObservableString` it owns). -/
def ShareString.insert (path : Path) (st : ShareStringState) (index : Int) (text : String) :
    ShareStringState :=
  match st.strv with
  | some s =>
      { st with strv := some ((s.take index.toNat) ++ text ++ (s.drop index.toNat)) }
  | none => { st with doc := st.doc.submitOp (ShareString.insertOp path index text) }

/-- `ShareString.text` getter (string.ts:64-69): the private
observable's string while local; while bound, the shared document's
value at the bound path (`SharePrimitive.value`, whose `share.ts` home
is not among the sources and is spec-modelled as the document read),
which is a string whenever the document is well-formed there. -/
def ShareString.text (path : Path) (st : ShareStringState) : String :=
  match st.strv with
  | some s => s
  | none =>
      match walk st.doc.data path with
      | some (JSON.str s) => s
      | _ => ""

/-- The `ShareString.text` setter (string.ts:50-59): skip when the new
value equals the current text (the source's length-then-content
comparison); while local, set the private observable; while bound,
submit a whole-value replace at the bound path. -/
def ShareString.setText (path : Path) (st : ShareStringState) (value : String) :
    ShareStringState :=
  if value = ShareString.text path st then st
  else
    match st.strv with
    | some _ => { st with strv := some value }
    | none => { st with doc := st.doc.submitOp (ShareString.setOp path value) }

/-- The state of a `ShareValue` (value.ts): the shared document handle
and, while in the local phase, the private `ObservableValue`'s value
(`none` once bound; the observable's initial value is `null`). -/
structure ShareValueState where
  doc : ShareDoc
  val : Option JSON

/-- Modelled from the spec: `SharePrimitive.value` lives in `share.ts`,
which is not among the provided sources; per §4.3 a bound primitive's
read is served by reading the shared document at its path. -/
def SharePrimitive.value (path : Path) (doc : ShareDoc) : Option JSON :=
  walk doc.data path

/-- `ShareValue.get` (value.ts:51-56): the private observable's value
while local, the shared document's value at the bound path while
bound. -/
def ShareValue.get (path : Path) (st : ShareValueState) : Option JSON :=
  match st.val with
  | some v => some v
  | none => SharePrimitive.value path st.doc

/-- `ShareValue.set` (value.ts:58-70): skip when the new value
deep-equals `get()`; while local, set the private observable; while
bound, submit `{p: path, oi: value}`.  The method never consults the
transport connection state. -/
def ShareValue.set (path : Path) (st : ShareValueState) (value : JSON) : ShareValueState :=
  if jsEq (some value) (ShareValue.get path st) then st
  else
    match st.val with
    | some _ => { st with val := some value }
    | none =>
        { st with
            doc := st.doc.submitOp { RawOp.empty with p := path, oi := some value } }

/-- Modelled from the spec: the connected-signal handler of
`SharePrimitive` lives in `share.ts`, which is not among the provided
sources; per §4.3 the handler copies the local value into the shared
document (`copyToDoc`, which value.ts:92-94 implements as submitting
`{p: path, oi: this._val.get()}`) and then disposes and nulls the
private observable (value.ts:30-34). -/
def ShareValue.connect (path : Path) (st : ShareValueState) : ShareValueState :=
  match st.val with
  | some v =>
      { doc := st.doc.submitOp { RawOp.empty with p := path, oi := some v },
        val := none }
  | none => st

/-- `ShareValue.onOp` (value.ts:97-114): empty batch no-op, more than
one op throws before anything is emitted, unrelated paths ignored; only
an op with `oi` present emits a change event, with `oldValue` taken
from `od` and `newValue` from `oi`; any other payload (in particular a
bare `od` deletion) emits nothing. -/
def ShareValue.onOp (path : Path) (ops : List RawOp) :
    Except String (List ValueChangedArgs) :=
  if ops.length = 0 then Except.ok []
  else if ops.length > 1 then Except.error "Unexpected number of ops"
  else
    match ops with
    | [] => Except.ok []
    | op :: _ =>
      if ¬ isSubpath path op.p then Except.ok []
      else
        match op.oi with
        | some v => Except.ok [⟨op.od, some v⟩]
        | none => Except.ok []

/-- `this.text` of the ShareString variant in `src/unnamed/part_002`
(lines 144-154): if `doc.data` is set, walk the bound path and return
the node (a string whenever the document is well-formed there);
otherwise the empty string. -/
def ShareStringB.text (path : Path) (doc : ShareDoc) : String :=
  match doc.data with
  | none => ""
  | some root =>
      match walk (some root) path with
      | some (JSON.str s) => s
      | _ => ""

/-- The `text` setter of the part_002 ShareString (lines 131-139): skip
when the new value equals the current text; silently drop while the
transport is connecting; otherwise submit a whole-value replace. -/
def ShareStringB.setText (path : Path) (doc : ShareDoc) (value : String) : ShareDoc :=
  if value = ShareStringB.text path doc then doc
  else if doc.connState = "connecting" then doc
  else doc.submitOp { RawOp.empty with p := path, oi := some (JSON.str value) }

/-- `insert` of the part_002 ShareString (lines 163-171): silently drop
while connecting; otherwise submit a string-insert at
`path ++ [index]`. -/
def ShareStringB.insert (path : Path) (doc : ShareDoc) (index : Int) (text : String) : ShareDoc :=
  if doc.connState = "connecting" then doc
  else doc.submitOp { RawOp.empty with p := path ++ [Key.num index], si := some text }

/-- `remove` of the part_002 ShareString (lines 180-188): silently drop
while connecting; otherwise submit a string-delete carrying the slice
of the current text at `path ++ [start]`. -/
def ShareStringB.remove (path : Path) (doc : ShareDoc) (start stop : Int) : ShareDoc :=
  if doc.connState = "connecting" then doc
  else
    doc.submitOp
      { RawOp.empty with
          p := path ++ [Key.num start],
          sd := some (jsSlice (ShareStringB.text path doc) start stop) }

/-! Shared lemmas about the embedding. -/

mutual

theorem JSON.beq_refl : ∀ j : JSON, JSON.beq j j = true
  | JSON.null => rfl
  | JSON.bool b => by simp [JSON.beq]
  | JSON.num n => by simp [JSON.beq]
  | JSON.str s => by simp [JSON.beq]
  | JSON.arr xs => by simp [JSON.beq, JSON.beqList_refl xs]
  | JSON.obj fs => by simp [JSON.beq, JSON.beqFields_refl fs]

theorem JSON.beqList_refl : ∀ l : List JSON, JSON.beqList l l = true
  | [] => rfl
  | x :: xs => by simp [JSON.beqList, JSON.beq_refl x, JSON.beqList_refl xs]

theorem JSON.beqFields_refl : ∀ l : List (String × JSON), JSON.beqFields l l = true
  | [] => rfl
  | (k, v) :: fs => by simp [JSON.beqFields, JSON.beq_refl v, JSON.beqFields_refl fs]

end

theorem jsEq_refl (a : Option JSON) : jsEq a a = true := by
  cases a with
  | none => rfl
  | some x => simp [jsEq, deepEqual, JSON.beq_refl]

theorem walk_none (p : Path) : walk none p = none := by
  induction p with
  | nil => rfl
  | cons c rest ih => simp [walk, jsChild, ih]

theorem walk_append (d : Option JSON) (a b : Path) :
    walk d (a ++ b) = walk (walk d a) b := by
  induction a generalizing d with
  | nil => rfl
  | cons c rest ih => simp [walk, ih]

theorem isSubpath_iff (p q : Path) :
    isSubpath p q = true ↔
      p.length ≤ q.length ∧ ∀ i, i < p.length → p.get? i = q.get? i := by
  unfold isSubpath
  by_cases h : p.length > q.length
  · simp only [if_pos h, Bool.false_eq_true, false_iff, not_and]
    intro hle
    omega
  · simp only [if_neg h, List.all_eq_true, List.mem_range, decide_eq_true_eq]
    have hle : p.length ≤ q.length := by omega
    exact ⟨fun h2 => ⟨hle, h2⟩, fun h2 => h2.2⟩

theorem isSubpath_concat (p r : Path) : isSubpath p (p ++ r) = true := by
  rw [isSubpath_iff]
  refine ⟨by simp, fun i hi => ?_⟩
  rw [List.get?_append hi]

theorem lookupField_setField (fs : List (String × JSON)) (s : String) (v : JSON) :
    lookupField (setField fs s v) s = some v := by
  induction fs with
  | nil => simp [setField, lookupField]
  | cons kv rest ih =>
      obtain ⟨k, w⟩ := kv
      by_cases h : k = s
      · simp [setField, lookupField, h]
      · simp [setField, lookupField, h, ih]

theorem jsGetIdx_some (xs : List JSON) (i : Int) (x : JSON)
    (h : jsGetIdx xs i = some x) : 0 ≤ i ∧ i.toNat < xs.length := by
  unfold jsGetIdx at h
  by_cases h0 : i < 0
  · simp [h0] at h
  · refine ⟨by omega, ?_⟩
    rw [if_neg h0] at h
    exact (List.get?_eq_some.mp h).1

theorem jsGetIdx_set (xs : List JSON) (i : Int) (x : JSON)
    (h0 : 0 ≤ i) (hl : i.toNat < xs.length) :
    jsGetIdx (xs.set i.toNat x) i = some x := by
  unfold jsGetIdx
  rw [if_neg (by omega)]
  rw [List.get?_eq_getElem?]
  rw [List.getElem?_set_eq_of_lt _ hl]

theorem modifyAt_walk (parent : Path) :
    ∀ (root r' : JSON) (f : JSON → Option JSON),
    modifyAt root parent f = some r' →
    ∃ node node', walk (some root) parent = some node ∧ f node = some node' ∧
      walk (some r') parent = some node' := by
  induction parent with
  | nil =>
      intro root r' f h
      exact ⟨root, r', rfl, h, rfl⟩
  | cons c rest ih =>
      intro root r' f h
      match root, c with
      | JSON.obj fs, Key.str s =>
          simp only [modifyAt, Option.bind_eq_bind] at h
          cases hc : lookupField fs s with
          | none => rw [hc] at h; simp at h
          | some child =>
              rw [hc] at h
              simp only [Option.some_bind] at h
              cases hm : modifyAt child rest f with
              | none => rw [hm] at h; simp at h
              | some child' =>
                  rw [hm] at h
                  simp only [Option.some_bind, Option.some.injEq] at h
                  obtain ⟨node, node', hw, hf, hw'⟩ := ih child child' f hm
                  refine ⟨node, node', ?_, hf, ?_⟩
                  · simp [walk, jsChild, hc, hw]
                  · subst h
                    simp [walk, jsChild, lookupField_setField, hw']
      | JSON.arr xs, Key.num i =>
          simp only [modifyAt, Option.bind_eq_bind] at h
          cases hc : jsGetIdx xs i with
          | none => rw [hc] at h; simp at h
          | some child =>
              rw [hc] at h
              simp only [Option.some_bind] at h
              cases hm : modifyAt child rest f with
              | none => rw [hm] at h; simp at h
              | some child' =>
                  rw [hm] at h
                  simp only [Option.some_bind] at h
                  obtain ⟨h0, hl⟩ := jsGetIdx_some xs i child hc
                  rw [if_neg (by omega)] at h
                  simp only [Option.some.injEq] at h
                  obtain ⟨node, node', hw, hf, hw'⟩ := ih child child' f hm
                  refine ⟨node, node', ?_, hf, ?_⟩
                  · simp [walk, jsChild, hc, hw]
                  · subst h
                    simp [walk, jsChild, jsGetIdx_set _ _ _ h0 (by simpa using hl), hw']

theorem walk_modifyAt (parent : Path) :
    ∀ (root node node' : JSON) (f : JSON → Option JSON),
    walk (some root) parent = some node → f node = some node' →
    ∃ r', modifyAt root parent f = some r' ∧ walk (some r') parent = some node' := by
  induction parent with
  | nil =>
      intro root node node' f hw hf
      simp only [walk] at hw
      cases hw
      exact ⟨node', hf, rfl⟩
  | cons c rest ih =>
      intro root node node' f hw hf
      have hchild : ∃ child, jsChild (some root) c = some child := by
        cases hcc : jsChild (some root) c with
        | none =>
            rw [show walk (some root) (c :: rest) = walk (jsChild (some root) c) rest from rfl,
              hcc, walk_none] at hw
            exact absurd hw (by simp)
        | some child => exact ⟨child, rfl⟩
      obtain ⟨child, hcc⟩ := hchild
      have hw2 : walk (some child) rest = some node := by
        rw [show walk (some root) (c :: rest) = walk (jsChild (some root) c) rest from rfl,
          hcc] at hw
        exact hw
      obtain ⟨r'', hm, hw''⟩ := ih child node node' f hw2 hf
      match root, c, hcc with
      | JSON.obj fs, Key.str s, hcc =>
          refine ⟨JSON.obj (setField fs s r''), ?_, ?_⟩
          · simp only [modifyAt, Option.bind_eq_bind]
            rw [show jsChild (some (JSON.obj fs)) (Key.str s) = lookupField fs s from rfl] at hcc
            rw [hcc, Option.some_bind, hm, Option.some_bind]
          · simp [walk, jsChild, lookupField_setField, hw'']
      | JSON.arr xs, Key.num i, hcc =>
          rw [show jsChild (some (JSON.arr xs)) (Key.num i) = jsGetIdx xs i from rfl] at hcc
          obtain ⟨h0, hl⟩ := jsGetIdx_some xs i child hcc
          refine ⟨JSON.arr (xs.set i.toNat r''), ?_, ?_⟩
          · simp only [modifyAt, Option.bind_eq_bind]
            rw [hcc, Option.some_bind, hm, Option.some_bind, if_neg (by omega)]
          · simp [walk, jsChild, jsGetIdx_set _ _ _ h0 (by simpa using hl), hw'']

theorem lastIdx_concat (p : Path) (i : Int) : lastIdx (p ++ [Key.num i]) = some i := by
  simp [lastIdx, List.getLast?_concat]

/-- A successful `oi` application puts the new value at the path. -/
theorem applyOi_walk (d : Option JSON) (p : Path) (v d' : JSON)
    (h : applyOi d p v = some d') : walk (some d') p = some v := by
  induction p using List.reverseRecOn with
  | nil =>
      simp only [applyOi, List.getLast?_nil] at h
      cases h
      rfl
  | append_singleton as a =>
      match a with
      | Key.str s =>
          simp only [applyOi, List.getLast?_concat, List.dropLast_concat,
            Option.bind_eq_bind] at h
          cases hd : d with
          | none => rw [hd] at h; simp at h
          | some root =>
              rw [hd] at h
              simp only [Option.some_bind] at h
              obtain ⟨node, node', hw, hf, hw'⟩ := modifyAt_walk as root d' _ h
              match node, hf with
              | JSON.obj fs, hf =>
                  simp only [Option.some.injEq] at hf
                  rw [walk_append]
                  rw [hw']
                  subst hf
                  simp [walk, jsChild, lookupField_setField]
      | Key.num i =>
          simp only [applyOi, List.getLast?_concat] at h
          simp only [listApply, lastIdx_concat, List.dropLast_concat,
            Option.bind_eq_bind] at h
          cases hd : d with
          | none => rw [hd] at h; simp at h
          | some root =>
              rw [hd] at h
              simp only [Option.some_bind] at h
              obtain ⟨node, node', hw, hf, hw'⟩ := modifyAt_walk as root d' _ h
              match node, hf with
              | JSON.arr xs, hf =>
                  simp only [Option.bind_eq_bind] at hf
                  by_cases hb : 0 ≤ i ∧ i.toNat < xs.length
                  · rw [if_pos hb] at hf
                    simp only [Option.some_bind, Option.some.injEq] at hf
                    rw [walk_append, hw']
                    subst hf
                    simp [walk, jsChild, jsGetIdx_set _ _ _ hb.1 (by simpa using hb.2)]
                  · rw [if_neg hb] at hf
                    simp at hf

/-- A successful list-replace application (an op with both `li` and
`ld`) replaces the item at the index, leaving an array whose indexed
element is the new item. -/
theorem applyRaw_setOp_walk (d : Option JSON) (path : Path) (i : Int) (b x : JSON) (d' : JSON)
    (h : applyRaw d (ShareList.setOp path i (some b) x) = some d') :
    walk (some d') path ≠ none ∧
    ∃ xs, walk (some d') path = some (JSON.arr xs) ∧ jsGetIdx xs i = some x := by
  simp only [applyRaw, ShareList.setOp, RawOp.empty] at h
  simp only [listApply, lastIdx_concat, List.dropLast_concat, Option.bind_eq_bind] at h
  cases hd : d with
  | none => rw [hd] at h; simp at h
  | some root =>
      rw [hd] at h
      simp only [Option.some_bind] at h
      obtain ⟨node, node', hw, hf, hw'⟩ := modifyAt_walk path root d' _ h
      match node, hf with
      | JSON.arr xs, hf =>
          simp only [Option.bind_eq_bind] at hf
          by_cases hb : 0 ≤ i ∧ i.toNat < xs.length
          · rw [if_pos hb] at hf
            simp only [Option.some_bind, Option.some.injEq] at hf
            subst hf
            refine ⟨by rw [hw']; simp, xs.set i.toNat x, hw', ?_⟩
            exact jsGetIdx_set _ _ _ hb.1 (by simpa using hb.2)
          · rw [if_neg hb] at hf
            simp at hf

/-! The claims. -/

/-- C5: for all paths `p` and `q`, `isSubpath p q` returns true iff
`p.length ≤ q.length` and every element of `p` equals the element at
the same index of `q`; in particular `isSubpath [] q` is always true
and `isSubpath p p` is always true. -/
theorem C5_isSubpath_characterization (p q : Path) :
    (isSubpath p q = true ↔
      p.length ≤ q.length ∧ ∀ i, i < p.length → p.get? i = q.get? i) ∧
    isSubpath [] q = true ∧ isSubpath p p = true := by
  refine ⟨isSubpath_iff p q, ?_, ?_⟩
  · rw [isSubpath_iff]
    exact ⟨by simp, by simp⟩
  · rw [isSubpath_iff]
    exact ⟨le_refl _, fun i _ => rfl⟩

/-- Witness for C5 at a concrete prefix pair. -/
theorem C5_witness :
    isSubpath [Key.str "a"] [Key.str "a", Key.num 0] = true :=
  ((C5_isSubpath_characterization [Key.str "a"] [Key.str "a", Key.num 0]).1).mpr
    ⟨by decide, by decide⟩

/-- C2: for every primitive kind (Value, Text, List), dispatching an
inbound raw batch of zero operations is a no-op, and a batch of more
than one operation raises the "Unexpected number of ops" error before
any change event is produced (the error return carries no events). -/
theorem C2_batch_size_discipline (path : Path) (doc : ShareDoc) (ops : List RawOp)
    (h : ops.length > 1) :
    ShareList.onOp path doc [] = Except.ok [] ∧
    ShareString.onOp path [] = Except.ok [] ∧
    ShareValue.onOp path [] = Except.ok [] ∧
    ShareList.onOp path doc ops = Except.error "Unexpected number of ops" ∧
    ShareString.onOp path ops = Except.error "Unexpected number of ops" ∧
    ShareValue.onOp path ops = Except.error "Unexpected number of ops" := by
  have h0 : ¬ ops.length = 0 := by omega
  refine ⟨rfl, rfl, rfl, ?_, ?_, ?_⟩ <;>
    simp [ShareList.onOp, ShareString.onOp, ShareValue.onOp, h0, h]

/-- Witness for C2 on a concrete two-op batch. -/
theorem C2_witness :
    ShareValue.onOp [] [RawOp.empty, RawOp.empty] =
      Except.error "Unexpected number of ops" :=
  (C2_batch_size_discipline [] ⟨none, [], "connected"⟩ [RawOp.empty, RawOp.empty]
    (by decide)).2.2.2.2.2

/-- C10: for a `ShareValue`, a remote operation at a related path whose
payload has no insertion (`oi` absent, in particular a bare `od`
deletion) produces no change event at all; only operations carrying
`oi` emit a set event, with `oldValue` taken from `od` and `newValue`
from `oi`. -/
theorem C10_value_deletion_only_no_event (path : Path) (op : RawOp)
    (hrel : isSubpath path op.p = true) :
    (op.oi = none → ShareValue.onOp path [op] = Except.ok []) ∧
    (∀ v, op.oi = some v →
      ShareValue.onOp path [op] = Except.ok [⟨op.od, some v⟩]) := by
  constructor
  · intro hoi
    simp [ShareValue.onOp, hrel, hoi]
  · intro v hoi
    simp [ShareValue.onOp, hrel, hoi]

/-- Witness for C10 on a concrete deletion-only op. -/
theorem C10_witness :
    ShareValue.onOp [Key.str "a"]
      [({ RawOp.empty with p := [Key.str "a"], od := some (JSON.str "x") })] =
      Except.ok [] :=
  (C10_value_deletion_only_no_event [Key.str "a"]
    { RawOp.empty with p := [Key.str "a"], od := some (JSON.str "x") }
    (by decide)).1 rfl

/-- C3: for every inbound list operation whose path the bound path is a
prefix of (the code's relatedness test), the emitted change event
follows the translation table: `li` together with `ld` emits a set
event at the final path key, `li` alone an add event there, `ld` alone
a remove event there, and `lm` a move event from the final path key to
the `lm` index. -/
theorem C3_list_translation_table (path : Path) (doc : ShareDoc) (op : RawOp)
    (hrel : isSubpath path op.p = true) :
    (∀ a b, op.li = some a → op.ld = some b →
      ShareList.onOp path doc [op] =
        Except.ok [⟨"set", keyVal op.p.getLast?, keyVal op.p.getLast?,
          [some b], [some a]⟩]) ∧
    (∀ a, op.li = some a → op.ld = none →
      ShareList.onOp path doc [op] =
        Except.ok [⟨"add", JSVal.num (-1), keyVal op.p.getLast?, [], [some a]⟩]) ∧
    (∀ b, op.ld = some b → op.li = none →
      ShareList.onOp path doc [op] =
        Except.ok [⟨"remove", keyVal op.p.getLast?, JSVal.num (-1), [some b], []⟩]) ∧
    (∀ m, op.lm = some m → op.li = none → op.ld = none →
      ShareList.onOp path doc [op] =
        Except.ok [⟨"move", keyVal op.p.getLast?, JSVal.num m,
          [ShareList.arrayAt path doc m], [ShareList.arrayAt path doc m]⟩]) := by
  refine ⟨?_, ?_, ?_, ?_⟩
  · intro a b hli hld
    simp [ShareList.onOp, hrel, hli, hld]
  · intro a hli hld
    simp [ShareList.onOp, hrel, hli, hld]
  · intro b hld hli
    simp [ShareList.onOp, hrel, hli, hld]
  · intro m hlm hli hld
    simp [ShareList.onOp, hrel, hli, hld, hlm]

/-- Witness for C3 on a concrete replace op (Scenario B's shape). -/
theorem C3_witness :
    ShareList.onOp [Key.str "cells"] ⟨none, [], "connected"⟩
      [({ RawOp.empty with p := [Key.str "cells", Key.num 0], li := some (JSON.str "x"), ld := some (JSON.str "a") })] =
      Except.ok [⟨"set", JSVal.num 0, JSVal.num 0,
        [some (JSON.str "a")], [some (JSON.str "x")]⟩] :=
  (C3_list_translation_table [Key.str "cells"] ⟨none, [], "connected"⟩
    ({ RawOp.empty with p := [Key.str "cells", Key.num 0], li := some (JSON.str "x"), ld := some (JSON.str "a") })
    (by decide)).1 (JSON.str "x") (JSON.str "a") rfl rfl

/-- C4 counterexample: the round trip is not lossless for every table
shape.  An insert of the empty string constructs an op with `si`
present (the table's text-insert row), but dispatching it emits no
change event at all (the source tests `op.si` for truthiness and `""`
is falsy); and the table's `lm` row has no local constructor: the local
`move` mutation never submits any operation. -/
theorem C4_roundtrip_counterexample :
    (ShareString.insertOp [Key.str "a"] 0 "").si = some "" ∧
    ShareString.onOp [Key.str "a"] [ShareString.insertOp [Key.str "a"] 0 ""] =
      Except.ok [] ∧
    (ShareList.move [Key.str "l"]
      ⟨some (JSON.obj [("l", JSON.arr [JSON.str "a", JSON.str "b"])]), [], "connected"⟩
      0 1).queue = [] :=
  ⟨rfl, rfl, rfl⟩

/-- C4 amended: for the Value-set, Text-set, Text-insert/remove (with
nonempty text payload) and List-set/add/remove rows of the translation
table, the payload a local mutation constructs is exactly the shape
remote dispatch decodes, the decode recovers the payload and the index,
and the index of every fine-grained Text/List operation is the last
element of the operation's path; empty-string text payloads decode to
no event and the move row has no local constructor (`move` is a no-op),
so those shapes do not round-trip. -/
theorem C4_roundtrip_amended (path : Path) (doc : ShareDoc) (i s e_ : Int)
    (t d curText v : String) (a b : JSON) (st : ShareStringState)
    (ht : t ≠ "") (hd : jsSlice curText s e_ = d) (hdne : d ≠ "")
    (hbound : st.strv = none) :
    ShareString.onOp path [ShareString.insertOp path i t] =
      Except.ok [⟨"insert", JSVal.num i, JSVal.num (i + t.length), JSON.str t⟩] ∧
    (ShareString.insertOp path i t).p.getLast? = some (Key.num i) ∧
    (ShareString.insert path st i t).doc.queue =
      st.doc.queue ++ [ShareString.insertOp path i t] ∧
    ShareString.removeOp path curText s e_ =
      { RawOp.empty with p := path ++ [Key.num s], sd := some d } ∧
    ShareString.onOp path [ShareString.removeOp path curText s e_] =
      Except.ok [⟨"remove", JSVal.num s, JSVal.num (s + d.length), JSON.str d⟩] ∧
    (ShareString.removeOp path curText s e_).p.getLast? = some (Key.num s) ∧
    ShareString.onOp path [ShareString.setOp path v] =
      Except.ok [⟨"set", JSVal.num 0, JSVal.num v.length, JSON.str v⟩] ∧
    ShareValue.onOp path [({ RawOp.empty with p := path, oi := some a })] =
      Except.ok [⟨none, some a⟩] ∧
    ShareList.onOp path doc [ShareList.setOp path i (some b) a] =
      Except.ok [⟨"set", JSVal.num i, JSVal.num i, [some b], [some a]⟩] ∧
    ShareList.onOp path doc [ShareList.insertOp path i a] =
      Except.ok [⟨"add", JSVal.num (-1), JSVal.num i, [], [some a]⟩] ∧
    ShareList.onOp path doc [ShareList.removeOp path i (some b)] =
      Except.ok [⟨"remove", JSVal.num i, JSVal.num (-1), [some b], []⟩] ∧
    (ShareList.setOp path i (some b) a).p.getLast? = some (Key.num i) ∧
    (ShareList.insertOp path i a).p.getLast? = some (Key.num i) ∧
    (ShareList.removeOp path i (some b)).p.getLast? = some (Key.num i) := by
  have hself : isSubpath path path = true := by
    have := isSubpath_concat path []
    simpa using this
  refine ⟨?_, ?_, ?_, ?_, ?_, ?_, ?_, ?_, ?_, ?_, ?_, ?_, ?_, ?_⟩
  · simp [ShareString.onOp, ShareString.insertOp, RawOp.empty, isSubpath_concat, strTruthy, ht,
      List.getLast?_concat, keyVal, jsValAdd]
  · simp [ShareString.insertOp, List.getLast?_concat]
  · simp [ShareString.insert, hbound]
    cases st with
    | mk stDoc stStr =>
        cases hbound
        simp [ShareDoc.submitOp]
  · simp [ShareString.removeOp, hd]
  · simp [ShareString.onOp, ShareString.removeOp, RawOp.empty, isSubpath_concat, strTruthy, hd, hdne,
      List.getLast?_concat, keyVal, jsValAdd]
  · simp [ShareString.removeOp, List.getLast?_concat]
  · simp [ShareString.onOp, ShareString.setOp, RawOp.empty, hself, jsLenOf]
  · simp [ShareValue.onOp, RawOp.empty, hself]
  · simp [ShareList.onOp, ShareList.setOp, RawOp.empty, isSubpath_concat, List.getLast?_concat, keyVal]
  · simp [ShareList.onOp, ShareList.insertOp, RawOp.empty, isSubpath_concat, List.getLast?_concat, keyVal]
  · simp [ShareList.onOp, ShareList.removeOp, RawOp.empty, isSubpath_concat, List.getLast?_concat, keyVal]
  · simp [ShareList.setOp, List.getLast?_concat]
  · simp [ShareList.insertOp, List.getLast?_concat]
  · simp [ShareList.removeOp, List.getLast?_concat]

/-- Witness for C4 at concrete values. -/
theorem C4_witness :
    ShareString.onOp [Key.str "s"] [ShareString.insertOp [Key.str "s"] 0 "x"] =
      Except.ok [⟨"insert", JSVal.num 0, JSVal.num 1, JSON.str "x"⟩] :=
  (C4_roundtrip_amended [Key.str "s"] ⟨none, [], "connected"⟩ 0 0 1 "x" "x" "xy" "w"
    (JSON.str "n") (JSON.str "o") ⟨⟨none, [], "connected"⟩, none⟩
    (by decide) rfl (by decide) rfl).1

/-- C7 counterexample: `ShareValue.set` never consults the connection
state; on a bound value (private observable already disposed) with the
transport reporting "connecting", a write of a different value submits
an operation instead of being silently dropped. -/
theorem C7_drop_counterexample :
    (ShareValueState.mk ⟨some (JSON.obj [("a", JSON.str "x")]), [], "connecting"⟩
      none).doc.connState = "connecting" ∧
    (ShareValue.set [Key.str "a"]
        ⟨⟨some (JSON.obj [("a", JSON.str "x")]), [], "connecting"⟩, none⟩
        (JSON.str "y")).doc.queue =
      [({ RawOp.empty with p := [Key.str "a"], oi := some (JSON.str "y") })] :=
  ⟨rfl, rfl⟩

/-- C7 amended: every `ShareList` write operation and every write of
the part_002 `ShareString` (text setter, insert, remove) returns
without submitting any operation and without raising when the transport
reports "connecting"; the `SharePrimitive`-based `ShareValue.set` and
`ShareString.insert` do not consult the connection state — while local
they only touch the private observable (submitting nothing), and while
bound they submit even during "connecting" (see the
counterexample). -/
theorem C7_drop_on_connecting_amended (path : Path) (doc : ShareDoc)
    (i s e_ fromIndex toIndex : Int) (v : JSON) (vs : List JSON) (t : String) (w : JSON)
    (h : doc.connState = "connecting") :
    ShareList.set path doc i v = doc ∧
    ShareList.push path doc v = (none, doc) ∧
    ShareList.insert path doc i v = doc ∧
    ShareList.remove path doc i = (none, doc) ∧
    ShareList.removeValue path doc v = (-1, doc) ∧
    ShareList.clear path doc = doc ∧
    ShareList.move path doc fromIndex toIndex = doc ∧
    ShareList.pushAll path doc vs = (some 0, doc) ∧
    ShareList.insertAll path doc i vs = doc ∧
    ShareList.removeRange path doc s e_ = (some 0, doc) ∧
    ShareStringB.setText path doc t = doc ∧
    ShareStringB.insert path doc i t = doc ∧
    ShareStringB.remove path doc s e_ = doc ∧
    (ShareValue.set path ⟨doc, some w⟩ v).doc = doc ∧
    (ShareString.insert path ⟨doc, some t⟩ i t).doc = doc := by
  refine ⟨?_, ?_, ?_, ?_, ?_, ?_, ?_, ?_, ?_, ?_, ?_, ?_, ?_, ?_, ?_⟩
  · simp [ShareList.set, h]
  · simp [ShareList.push, h]
  · simp [ShareList.insert, h]
  · simp [ShareList.remove, h]
  · simp [ShareList.removeValue, h]
  · simp [ShareList.clear, h]
  · simp [ShareList.move, h]
  · simp [ShareList.pushAll, h]
  · simp [ShareList.insertAll, h]
  · simp [ShareList.removeRange, h]
  · simp [ShareStringB.setText, h, ite_self]
  · simp [ShareStringB.insert, h]
  · simp [ShareStringB.remove, h]
  · simp only [ShareValue.set]
    split
    · rfl
    · rfl
  · rfl

/-- Witness for C7 at a concrete connecting-state document. -/
theorem C7_witness :
    ShareList.set [Key.str "l"] ⟨none, [], "connecting"⟩ 0 (JSON.str "b") =
      (⟨none, [], "connecting"⟩ : ShareDoc) :=
  (C7_drop_on_connecting_amended [Key.str "l"] ⟨none, [], "connecting"⟩ 0 0 0 0 0
    (JSON.str "b") [] "t" JSON.null rfl).1

/-- C8 counterexample: on a one-element list, `set` at the
out-of-range index 5 does not return a not-found sentinel: it submits a
replace operation (whose deleted item is the absent `undefined`). -/
theorem C8_notfound_counterexample :
    ShareList.lengthOf [Key.str "l"]
      ⟨some (JSON.obj [("l", JSON.arr [JSON.str "a"])]), [], "connected"⟩ = some 1 ∧
    (ShareList.set [Key.str "l"]
        ⟨some (JSON.obj [("l", JSON.arr [JSON.str "a"])]), [], "connected"⟩
        5 (JSON.str "b")).queue =
      [ShareList.setOp [Key.str "l"] 5 none (JSON.str "b")] :=
  ⟨rfl, rfl⟩

/-- C8 amended: `remove` with an index outside `[0, length)` returns
the `undefined` sentinel without submitting and without raising;
`set` performs no bounds check: with an out-of-range index it submits a
replace operation whose deleted item is the absent (`undefined`) old
value, also without raising. -/
theorem C8_out_of_range_amended (path : Path) (doc : ShareDoc) (i : Int) (v : JSON)
    (l : List JSON)
    (hconn : ¬ doc.connState = "connecting")
    (harr : ShareList.arrayNode path doc = some (JSON.arr l))
    (hout : i < 0 ∨ (l.length : Int) ≤ i) :
    ShareList.remove path doc i = (none, doc) ∧
    (ShareList.set path doc i v).queue = doc.queue ++ [ShareList.setOp path i none v] := by
  have hlen : ShareList.lengthOf path doc = some (l.length : Int) := by
    simp [ShareList.lengthOf, harr]
  have hat : ShareList.arrayAt path doc i = none := by
    simp only [ShareList.arrayAt, harr]
    unfold jsGetIdx
    rcases hout with hneg | hge
    · rw [if_pos hneg]
    · by_cases hneg : i < 0
      · rw [if_pos hneg]
      · rw [if_neg hneg]
        rw [List.get?_eq_none]
        omega
  constructor
  · unfold ShareList.remove
    rw [if_neg hconn]
    rw [if_pos ?_]
    rw [Bool.or_eq_true, decide_eq_true_eq]
    rcases hout with hneg | hge
    · exact Or.inl hneg
    · right
      simp [jsGe, hlen]
      omega
  · unfold ShareList.set
    rw [if_neg hconn]
    simp only [hat]
    rw [if_neg (by simp [jsEq])]
    simp [ShareDoc.submitOp, ShareList.setOp]

/-- Witness for C8 at a concrete out-of-range index. -/
theorem C8_witness :
    ShareList.remove [Key.str "l"]
      ⟨some (JSON.obj [("l", JSON.arr [JSON.str "a"])]), [], "connected"⟩ 5 =
      (none, ⟨some (JSON.obj [("l", JSON.arr [JSON.str "a"])]), [], "connected"⟩) :=
  (C8_out_of_range_amended [Key.str "l"]
    ⟨some (JSON.obj [("l", JSON.arr [JSON.str "a"])]), [], "connected"⟩ 5 (JSON.str "b")
    [JSON.str "a"] (by decide) rfl (by decide)).1

theorem preparePathGo_of_truthy (rest : List Key) :
    ∀ (doc : ShareDoc) (done : Path),
    walkAllTruthy (walk doc.data done) rest = true →
    ShareList.preparePathGo doc done rest = doc := by
  induction rest with
  | nil => intro doc done _; rfl
  | cons c rest ih =>
      intro doc done h
      simp only [walkAllTruthy, Bool.and_eq_true] at h
      obtain ⟨h1, h2⟩ := h
      have hc : jsChild (walk doc.data done) c = walk doc.data (done ++ [c]) := by
        rw [walk_append]
        rfl
      rw [hc] at h1 h2
      simp only [ShareList.preparePathGo, h1, if_true]
      exact ih doc (done ++ [c]) h2

theorem walkAllTruthy_dropLast (p : Path) :
    ∀ d, walkAllTruthy d p = true → walkAllTruthy d p.dropLast = true := by
  induction p with
  | nil => intro d h; exact h
  | cons c rest ih =>
      intro d h
      cases rest with
      | nil => rfl
      | cons c2 r2 =>
          rw [List.dropLast_cons₂]
          have h2 : (jsTruthy (jsChild d c) && walkAllTruthy (jsChild d c) (c2 :: r2)) = true := h
          rw [Bool.and_eq_true] at h2
          show (jsTruthy (jsChild d c) && walkAllTruthy (jsChild d c) ((c2 :: r2).dropLast)) = true
          rw [Bool.and_eq_true]
          exact ⟨h2.1, ih _ h2.2⟩

theorem take_middle (done : Path) (c : Key) (rest : List Key) :
    (done ++ c :: rest).take (done.length + 1) = done ++ [c] := by
  have h1 : done ++ c :: rest = (done ++ [c]) ++ rest := by simp
  have h2 : done.length + 1 = (done ++ [c]).length + 0 := by simp
  rw [h1, h2, List.take_append 0]
  simp

theorem preparePathGo_cons (doc : ShareDoc) (done : Path) (c : Key) (rest : List Key) :
    ShareList.preparePathGo doc done (c :: rest) =
      ShareList.preparePathGo
        (if jsTruthy (walk doc.data (done ++ [c])) then doc
         else doc.submitOp (oiOp (done ++ [c]) (JSON.obj []))) (done ++ [c]) rest := rfl

theorem preparePathGo_spec (rest : List Key) :
    ∀ (doc : ShareDoc) (done : Path),
    ∃ ks : List Nat, List.Chain' (fun a b => a < b) ks ∧
      (∀ k ∈ ks, done.length + 1 ≤ k ∧ k ≤ done.length + rest.length) ∧
      (ShareList.preparePathGo doc done rest).queue =
        doc.queue ++ ks.map (fun k => oiOp ((done ++ rest).take k) (JSON.obj [])) ∧
      (ShareList.preparePathGo doc done rest).connState = doc.connState := by
  induction rest with
  | nil =>
      intro doc done
      exact ⟨[], by simp, by simp, by simp [ShareList.preparePathGo], rfl⟩
  | cons c rest ih =>
      intro doc done
      by_cases htr : jsTruthy (walk doc.data (done ++ [c])) = true
      · obtain ⟨ks, hch, hbnd, hq, hcs⟩ := ih doc (done ++ [c])
        simp only [List.append_assoc, List.singleton_append] at hq
        refine ⟨ks, hch, ?_, ?_, ?_⟩
        · intro k hk
          have := hbnd k hk
          simp only [List.length_append, List.length_cons, List.length_nil] at this ⊢
          omega
        · rw [preparePathGo_cons, if_pos htr]
          exact hq
        · rw [preparePathGo_cons, if_pos htr]
          exact hcs
      · obtain ⟨ks, hch, hbnd, hq, hcs⟩ :=
          ih (doc.submitOp (oiOp (done ++ [c]) (JSON.obj []))) (done ++ [c])
        simp only [List.append_assoc, List.singleton_append] at hq
        refine ⟨(done.length + 1) :: ks, ?_, ?_, ?_, ?_⟩
        · rw [List.chain'_cons']
          refine ⟨?_, hch⟩
          intro y hy
          have hmem : y ∈ ks := by
            cases ks with
            | nil => simp at hy
            | cons k0 kr =>
                simp only [List.head?_cons, Option.mem_def, Option.some.injEq] at hy
                rw [hy]
                exact List.mem_cons_self y kr
          have := hbnd y hmem
          simp only [List.length_append, List.length_cons, List.length_nil] at this
          omega
        · intro k hk
          rcases List.mem_cons.mp hk with hk | hk
          · subst hk
            simp only [List.length_cons]
            omega
          · have := hbnd k hk
            simp only [List.length_append, List.length_cons, List.length_nil] at this ⊢
            omega
        · rw [preparePathGo_cons, if_neg htr, hq]
          simp only [ShareDoc.submitOp, List.map_cons, take_middle]
          simp only [List.append_assoc, List.singleton_append]
        · rw [preparePathGo_cons, if_neg htr, hcs]
          rfl

/-- C9 counterexample: with document `{a: {b: 0}}` and bound path
`a.b`, the full path already exists in the document tree (every key is
present), yet the load handler submits an initialization operation: the
source tests presence by JS truthiness and the leaf value `0` is
falsy. -/
theorem C9_init_counterexample :
    (walk (some (JSON.obj [("a", JSON.obj [("b", JSON.num 0)])]))
      [Key.str "a", Key.str "b"]).isSome = true ∧
    (ShareList.onLoad [Key.str "a", Key.str "b"]
      ⟨some (JSON.obj [("a", JSON.obj [("b", JSON.num 0)])]), [], "connected"⟩).queue =
      [oiOp [Key.str "a", Key.str "b"] (JSON.arr [])] :=
  ⟨rfl, rfl⟩

/-- C9 amended: presence along the path is measured by JS truthiness
(a falsy value — `null`, `false`, `0`, `""` — at a component counts as
missing and is re-initialized).  With that reading: if every component
along the path is truthy, the load handler submits nothing; in general
it submits one `{}` object-insert per falsy intermediate component, at
strictly increasing proper prefixes of the path (root-to-leaf order),
followed by the `[]` leaf initialization exactly when the full walk
over the prepared document is still falsy somewhere. -/
theorem C9_path_init_amended (path : Path) (doc : ShareDoc) :
    (walkAllTruthy doc.data path = true → ShareList.onLoad path doc = doc) ∧
    ∃ ks : List Nat, List.Chain' (fun a b => a < b) ks ∧
      (∀ k ∈ ks, 1 ≤ k ∧ k + 1 ≤ path.length) ∧
      (ShareList.onLoad path doc).queue =
        (doc.queue ++ ks.map (fun k => oiOp (path.take k) (JSON.obj []))) ++
        (if walkAllTruthy (ShareList.preparePath path doc).data path then []
         else [oiOp path (JSON.arr [])]) := by
  constructor
  · intro h
    have hprep : ShareList.preparePath path doc = doc := by
      unfold ShareList.preparePath
      exact preparePathGo_of_truthy path.dropLast doc []
        (walkAllTruthy_dropLast path doc.data h)
    unfold ShareList.onLoad
    rw [hprep, if_pos h]
  · obtain ⟨ks, hch, hbnd, hq, hcs⟩ := preparePathGo_spec path.dropLast doc []
    have hlen : path.dropLast.length = path.length - 1 := List.length_dropLast path
    have hmap : ks.map (fun k => oiOp ((([] : Path) ++ path.dropLast).take k) (JSON.obj [])) =
        ks.map (fun k => oiOp (path.take k) (JSON.obj [])) := by
      apply List.map_congr_left
      intro k hk
      have hb := hbnd k hk
      simp only [List.length_nil, Nat.zero_add] at hb
      congr 1
      rw [List.nil_append, List.dropLast_eq_take, List.take_take]
      congr 1
      exact Nat.min_eq_left (by omega)
    refine ⟨ks, hch, ?_, ?_⟩
    · intro k hk
      have hb := hbnd k hk
      simp only [List.length_nil, Nat.zero_add] at hb
      omega
    · unfold ShareList.onLoad
      by_cases hw : walkAllTruthy (ShareList.preparePath path doc).data path = true
      · rw [if_pos hw, if_pos hw]
        unfold ShareList.preparePath
        rw [hq, hmap, List.append_nil]
      · rw [if_neg hw, if_neg hw]
        simp only [ShareDoc.submitOp]
        unfold ShareList.preparePath
        rw [hq, hmap]

/-- Witness for C9: on `{a: {b: []}}` every component is truthy and the
load handler submits nothing. -/
theorem C9_witness :
    ShareList.onLoad [Key.str "a", Key.str "b"]
      ⟨some (JSON.obj [("a", JSON.obj [("b", JSON.arr [])])]), [], "connected"⟩ =
      (⟨some (JSON.obj [("a", JSON.obj [("b", JSON.arr [])])]), [], "connected"⟩ : ShareDoc) :=
  (C9_path_init_amended [Key.str "a", Key.str "b"]
    ⟨some (JSON.obj [("a", JSON.obj [("b", JSON.arr [])])]), [], "connected"⟩).1 rfl

/-- C1: on the connected signal a `ShareValue` with local value `v`
submits `{p: path, oi: v}` (copyToDoc), then nulls its private
observable; after a successful application the shared document holds
`v` at the path, every subsequent read resolves against the shared
document's current value at the path (not any stale local copy), and
the transition is one-way (connecting again is the identity). -/
theorem C1_local_to_bound_handoff (path : Path) (doc : ShareDoc) (v d1 : JSON)
    (happ : applyRaw doc.data ({ RawOp.empty with p := path, oi := some v }) = some d1) :
    (ShareValue.connect path ⟨doc, some v⟩).val = none ∧
    (ShareValue.connect path ⟨doc, some v⟩).doc.queue =
      doc.queue ++ [({ RawOp.empty with p := path, oi := some v })] ∧
    (ShareValue.connect path ⟨doc, some v⟩).doc.data = some d1 ∧
    walk (some d1) path = some v ∧
    ShareValue.get path (ShareValue.connect path ⟨doc, some v⟩) =
      walk (ShareValue.connect path ⟨doc, some v⟩).doc.data path ∧
    (∀ d2 : ShareDoc, ShareValue.get path ⟨d2, none⟩ = walk d2.data path) ∧
    ShareValue.connect path (ShareValue.connect path ⟨doc, some v⟩) =
      ShareValue.connect path ⟨doc, some v⟩ := by
  have hoi : applyOi doc.data path v = some d1 := by
    simpa [applyRaw, RawOp.empty] using happ
  refine ⟨rfl, rfl, ?_, applyOi_walk doc.data path v d1 hoi, rfl, fun d2 => rfl, rfl⟩
  simp [ShareValue.connect, ShareDoc.submitOp, happ]

/-- Witness for C1: local value "V", empty shared document. -/
theorem C1_witness :
    walk (ShareValue.connect [Key.str "a"]
      ⟨⟨some (JSON.obj []), [], "connected"⟩, some (JSON.str "V")⟩).doc.data
      [Key.str "a"] = some (JSON.str "V") ∧
    (ShareValue.connect [Key.str "a"]
      ⟨⟨some (JSON.obj []), [], "connected"⟩, some (JSON.str "V")⟩).val = none := by
  have h := C1_local_to_bound_handoff [Key.str "a"] ⟨some (JSON.obj []), [], "connected"⟩
    (JSON.str "V") (JSON.obj [("a", JSON.str "V")]) rfl
  refine ⟨?_, h.1⟩
  rw [h.2.2.1]
  exact h.2.2.2.1

/-- C6 counterexample: the unqualified "write(x) immediately followed
by write(x) submits at most one Operation" fails on the code:
`ShareList.set` has no bounds check, and an out-of-range replace never
becomes the current content, so the same out-of-range write repeated
submits one operation per call — two operations here, starting from an
empty queue. -/
theorem C6_noop_counterexample :
    (ShareList.set [Key.str "l"]
      (ShareList.set [Key.str "l"]
        ⟨some (JSON.obj [("l", JSON.arr [JSON.str "a"])]), [], "connected"⟩
        5 (JSON.str "b"))
      5 (JSON.str "b")).queue.length = 2 := rfl

/-- C6 amended: for every primitive — Value, Text (both the
`SharePrimitive`-based and the part_002 variant) and List — a write of
a value deep-equal to the current content submits no operation and
leaves the state unchanged (hence emits no event, events arising only
from dispatched operations).  A write immediately repeated with the
same value submits at most one operation while local (no submission at
all), and while bound whenever the first write's operation actually
applies to the document (Value/Text set at a reachable path, List set
at an in-range index); an out-of-range List set never updates the
content and submits on every call (see the counterexample). -/
theorem C6_noop_write_guard (path : Path) (doc : ShareDoc) (st : ShareValueState)
    (sst : ShareStringState) (i : Int) (x b d1 d2 d3 : JSON) (t : String) :
    (jsEq (some x) (ShareValue.get path st) = true → ShareValue.set path st x = st) ∧
    (jsEq (ShareList.arrayAt path doc i) (some x) = true →
      ShareList.set path doc i x = doc) ∧
    ShareString.setText path sst (ShareString.text path sst) = sst ∧
    ShareStringB.setText path doc (ShareStringB.text path doc) = doc ∧
    (∀ w, st.val = some w →
      (ShareValue.set path (ShareValue.set path st x) x).doc = st.doc) ∧
    (∀ s0, sst.strv = some s0 →
      (ShareString.setText path (ShareString.setText path sst t) t).doc = sst.doc) ∧
    (st.val = none →
      applyRaw st.doc.data ({ RawOp.empty with p := path, oi := some x }) = some d1 →
      (ShareValue.set path (ShareValue.set path st x) x).doc.queue.length ≤
        st.doc.queue.length + 1) ∧
    (sst.strv = none →
      applyRaw sst.doc.data (ShareString.setOp path t) = some d3 →
      (ShareString.setText path (ShareString.setText path sst t) t).doc.queue.length ≤
        sst.doc.queue.length + 1) ∧
    (¬ doc.connState = "connecting" →
      ShareList.arrayAt path doc i = some b →
      applyRaw doc.data (ShareList.setOp path i (some b) x) = some d2 →
      (ShareList.set path (ShareList.set path doc i x) i x).queue.length ≤
        doc.queue.length + 1) := by
  refine ⟨?_, ?_, ?_, ?_, ?_, ?_, ?_, ?_, ?_⟩
  · intro hg
    unfold ShareValue.set
    rw [if_pos hg]
  · intro hg
    unfold ShareList.set
    by_cases hc : doc.connState = "connecting"
    · rw [if_pos hc]
    · rw [if_neg hc]
      simp only [hg, if_true]
  · unfold ShareString.setText
    rw [if_pos rfl]
  · unfold ShareStringB.setText
    rw [if_pos rfl]
  · intro w hw
    cases st with
    | mk doc0 val0 =>
        simp only at hw
        cases hw
        by_cases hg : jsEq (some x) (ShareValue.get path ⟨doc0, some w⟩) = true
        · have h1 : ShareValue.set path ⟨doc0, some w⟩ x = ⟨doc0, some w⟩ := by
            unfold ShareValue.set
            rw [if_pos hg]
          rw [h1, h1]
        · have h1 : ShareValue.set path ⟨doc0, some w⟩ x = ⟨doc0, some x⟩ := by
            unfold ShareValue.set
            rw [if_neg hg]
          rw [h1]
          have hg2 : jsEq (some x) (ShareValue.get path ⟨doc0, some x⟩) = true := by
            simp [ShareValue.get, jsEq_refl]
          have h2 : ShareValue.set path ⟨doc0, some x⟩ x = ⟨doc0, some x⟩ := by
            unfold ShareValue.set
            rw [if_pos hg2]
          rw [h2]
  · intro s0 hw
    cases sst with
    | mk doc0 str0 =>
        simp only at hw
        cases hw
        by_cases hg : t = ShareString.text path ⟨doc0, some s0⟩
        · have h1 : ShareString.setText path ⟨doc0, some s0⟩ t = ⟨doc0, some s0⟩ := by
            unfold ShareString.setText
            rw [if_pos hg]
          rw [h1, h1]
        · have h1 : ShareString.setText path ⟨doc0, some s0⟩ t = ⟨doc0, some t⟩ := by
            unfold ShareString.setText
            rw [if_neg hg]
          rw [h1]
          have hg2 : t = ShareString.text path ⟨doc0, some t⟩ := rfl
          have h2 : ShareString.setText path ⟨doc0, some t⟩ t = ⟨doc0, some t⟩ := by
            unfold ShareString.setText
            rw [if_pos hg2]
          rw [h2]
  · intro hval happ
    cases st with
    | mk doc0 val0 =>
        simp only at hval
        cases hval
        by_cases hg : jsEq (some x) (ShareValue.get path ⟨doc0, none⟩) = true
        · have h1 : ShareValue.set path ⟨doc0, none⟩ x = ⟨doc0, none⟩ := by
            unfold ShareValue.set
            rw [if_pos hg]
          rw [h1, h1]
          omega
        · have h1 : ShareValue.set path ⟨doc0, none⟩ x =
              ⟨doc0.submitOp ({ RawOp.empty with p := path, oi := some x }), none⟩ := by
            unfold ShareValue.set
            rw [if_neg hg]
          rw [h1]
          have hoi : applyOi doc0.data path x = some d1 := by
            simpa [applyRaw, RawOp.empty] using happ
          have hdata : (doc0.submitOp
              ({ RawOp.empty with p := path, oi := some x })).data = some d1 := by
            simp [ShareDoc.submitOp, happ]
          have hg2 : jsEq (some x) (ShareValue.get path
              ⟨doc0.submitOp ({ RawOp.empty with p := path, oi := some x }), none⟩) = true := by
            simp only [ShareValue.get, SharePrimitive.value, hdata]
            rw [applyOi_walk doc0.data path x d1 hoi]
            exact jsEq_refl (some x)
          have h2 : ShareValue.set path
              ⟨doc0.submitOp ({ RawOp.empty with p := path, oi := some x }), none⟩ x =
              ⟨doc0.submitOp ({ RawOp.empty with p := path, oi := some x }), none⟩ := by
            unfold ShareValue.set
            rw [if_pos hg2]
          rw [h2]
          simp [ShareDoc.submitOp]
  · intro hval happ
    cases sst with
    | mk doc0 str0 =>
        simp only at hval
        cases hval
        by_cases hg : t = ShareString.text path ⟨doc0, none⟩
        · have h1 : ShareString.setText path ⟨doc0, none⟩ t = ⟨doc0, none⟩ := by
            unfold ShareString.setText
            rw [if_pos hg]
          rw [h1, h1]
          omega
        · have h1 : ShareString.setText path ⟨doc0, none⟩ t =
              ⟨doc0.submitOp (ShareString.setOp path t), none⟩ := by
            unfold ShareString.setText
            rw [if_neg hg]
          rw [h1]
          have hoi : applyOi doc0.data path (JSON.str t) = some d3 := by
            simpa [applyRaw, ShareString.setOp, RawOp.empty] using happ
          have hdata : (doc0.submitOp (ShareString.setOp path t)).data = some d3 := by
            simp [ShareDoc.submitOp, happ]
          have hg2 : t = ShareString.text path
              ⟨doc0.submitOp (ShareString.setOp path t), none⟩ := by
            simp only [ShareString.text, hdata,
              applyOi_walk doc0.data path (JSON.str t) d3 hoi]
          have h2 : ShareString.setText path
              ⟨doc0.submitOp (ShareString.setOp path t), none⟩ t =
              ⟨doc0.submitOp (ShareString.setOp path t), none⟩ := by
            unfold ShareString.setText
            rw [if_pos hg2]
          rw [h2]
          simp [ShareDoc.submitOp]
  · intro hconn hat happ
    by_cases hg : jsEq (some b) (some x) = true
    · have h1 : ShareList.set path doc i x = doc := by
        unfold ShareList.set
        rw [if_neg hconn]
        simp only [hat, hg, if_true]
      rw [h1, h1]
      omega
    · have h1 : ShareList.set path doc i x = doc.submitOp (ShareList.setOp path i (some b) x) := by
        unfold ShareList.set
        rw [if_neg hconn]
        simp only [hat, hg, if_false]
        rfl
      rw [h1]
      have hdata : (doc.submitOp (ShareList.setOp path i (some b) x)).data = some d2 := by
        simp [ShareDoc.submitOp, happ]
      obtain ⟨-, xs2, hwalk, hget⟩ :=
        applyRaw_setOp_walk doc.data path i b x d2 happ
      have hat2 : ShareList.arrayAt path (doc.submitOp (ShareList.setOp path i (some b) x)) i =
          some x := by
        simp only [ShareList.arrayAt, ShareList.arrayNode, hdata, hwalk]
        exact hget
      have hconn2 : ¬ (doc.submitOp (ShareList.setOp path i (some b) x)).connState =
          "connecting" := by
        simpa [ShareDoc.submitOp] using hconn
      have h2 : ShareList.set path (doc.submitOp (ShareList.setOp path i (some b) x)) i x =
          doc.submitOp (ShareList.setOp path i (some b) x) := by
        unfold ShareList.set
        rw [if_neg hconn2]
        simp only [hat2, jsEq_refl, if_true]
      rw [h2]
      simp [ShareDoc.submitOp]

/-- Witness for C6: replacing index 0 of `["a"]` by "b" twice submits
one operation. -/
theorem C6_witness :
    (ShareList.set [Key.str "l"]
      (ShareList.set [Key.str "l"]
        ⟨some (JSON.obj [("l", JSON.arr [JSON.str "a"])]), [], "connected"⟩ 0 (JSON.str "b"))
      0 (JSON.str "b")).queue.length ≤ 1 :=
  (C6_noop_write_guard [Key.str "l"]
    ⟨some (JSON.obj [("l", JSON.arr [JSON.str "a"])]), [], "connected"⟩
    ⟨⟨none, [], "connected"⟩, none⟩ ⟨⟨none, [], "connected"⟩, none⟩
    0 (JSON.str "b") (JSON.str "a") JSON.null
    (JSON.obj [("l", JSON.arr [JSON.str "b"])]) JSON.null "z").2.2.2.2.2.2.2.2
    (by decide) rfl rfl

end ShareDB
